import Mathlib

/-!
Verification of the mistake-tracking core of the AI document summary app.

The embedded code is the `mistake_book` API:
  * `app/api/mistakes/[id]/route.ts` : `PATCH` (record an answer outcome) and
    `DELETE` (manual removal);
  * `app/api/mistakes/route.ts`      : `GET` (list active mistakes) and
    `POST` (bulk ingest of incorrect answers).

The Supabase table `mistake_book` is modelled as a list of rows.  Row ids,
which the database assigns, are modelled as natural numbers handed out by a
fresh-id counter; timestamps are modelled as natural numbers and every
handler receives the current time `now` as an explicit argument (the source
calls `new Date().toISOString()`).
-/

namespace MistakeBook

/-- `MASTERY_THRESHOLD = 3` from `app/api/mistakes/[id]/route.ts`. -/
def MASTERY_THRESHOLD : Nat := 3

/-- One row of the `mistake_book` table (interface `MistakeRecord` in
`app/api/mistakes/route.ts`). -/
structure MistakeRecord where
  id : Nat
  storage_path : String
  file_name : String
  question_id : Int
  question : String
  options : List String
  answer : String
  wrong_count : Nat
  correct_streak : Nat
  mastered : Bool
  last_seen_at : Nat
  created_at : Nat
  deriving Repr, DecidableEq

/-- The persisted `mistake_book` table, as the list of its rows. -/
abbrev Table := List MistakeRecord

/-- Row filter `.eq('id', id)`. -/
def idMatch (i : Nat) (r : MistakeRecord) : Bool := r.id == i

/-- Row filter `.eq('storage_path', sp).eq('question_id', qid)` — the
composite business key used by the bulk-ingest lookup. -/
def keyMatch (sp : String) (qid : Int) (r : MistakeRecord) : Bool :=
  r.storage_path == sp && r.question_id == qid

/-- The request body of `PATCH /api/mistakes/[id]`: either `req.json()`
throws, or the parsed body has no boolean `correct` field, or it carries
`correct : boolean`. -/
inductive PatchBody where
  | invalidJson
  | noBoolCorrect
  | correct (b : Bool)
  deriving Repr, DecidableEq

/-- The response of `PATCH /api/mistakes/[id]`: 400, 404, or the 200 payload
`{ ok, mastered, newStreak, threshold }`. -/
inductive PatchResponse where
  | invalidInput
  | notFound
  | ok (mastered : Bool) (newStreak : Nat) (threshold : Nat)
  deriving Repr, DecidableEq

/-- The streak the handler computes:
`newStreak = body.correct ? row.correct_streak + 1 : 0`. -/
def newStreakOf (c : Bool) (row : MistakeRecord) : Nat :=
  if c then row.correct_streak + 1 else 0

/-- The `updates` object of the `PATCH` handler, applied to a row `r`:
`correct_streak`, `mastered` and `last_seen_at` come from the fetched `row`,
and `wrong_count` is included only when `correct == false`. -/
def patchUpdates (c : Bool) (row : MistakeRecord) (now : Nat)
    (r : MistakeRecord) : MistakeRecord :=
  { r with
    correct_streak := newStreakOf c row
    mastered := decide (MASTERY_THRESHOLD ≤ newStreakOf c row)
    last_seen_at := now
    wrong_count := if c then r.wrong_count else row.wrong_count + 1 }

/-- `PATCH /api/mistakes/[id]` from `app/api/mistakes/[id]/route.ts`.
Returns the table after the handler ran together with the response.
The handler rejects a malformed body (400) and a missing record (404);
otherwise it computes `newStreak = correct ? correct_streak + 1 : 0`,
`mastered = newStreak >= MASTERY_THRESHOLD`, and updates every row whose
`id` matches (`.update(updates).eq('id', id)`), adding
`wrong_count = row.wrong_count + 1` to the updates only when
`correct == false`. -/
def PATCH (db : Table) (rid : Nat) (body : PatchBody) (now : Nat) :
    Table × PatchResponse :=
  match body with
  | .invalidJson => (db, .invalidInput)
  | .noBoolCorrect => (db, .invalidInput)
  | .correct c =>
    match db.find? (idMatch rid) with
    | none => (db, .notFound)
    | some row =>
      (db.map (fun r => if idMatch rid r then patchUpdates c row now r else r),
        .ok (decide (MASTERY_THRESHOLD ≤ newStreakOf c row)) (newStreakOf c row)
          MASTERY_THRESHOLD)

/-- `DELETE /api/mistakes/[id]`: `.delete().eq('id', id)` removes every row
whose id matches, and succeeds whether or not one existed. -/
def DELETE (db : Table) (rid : Nat) : Table :=
  db.filter (fun r => !idMatch rid r)

/-- `GET /api/mistakes`: `.select('*').eq('mastered', false)
.order('created_at', { ascending: true })`. -/
def GET (db : Table) : List MistakeRecord :=
  (db.filter (fun r => r.mastered == false)).mergeSort
    (fun a b => decide (a.created_at ≤ b.created_at))

/-- One element of the `questions` array posted to `POST /api/mistakes`. -/
structure IngestQuestion where
  storage_path : String
  file_name : String
  question_id : Int
  question : String
  options : List String
  answer : String
  deriving Repr, DecidableEq

/-- The request body of `POST /api/mistakes`: either `req.json()` throws, or
the parsed body has no `questions` array (missing or not an array), or it
carries the array. -/
inductive PostBody where
  | invalidJson
  | noQuestionsArray
  | questions (qs : List IngestQuestion)
  deriving Repr, DecidableEq

/-- The response of `POST /api/mistakes`: 400 or the `{ ok: true }`
acknowledgment. -/
inductive PostResponse where
  | invalidInput
  | ok
  deriving Repr, DecidableEq

/-- The row inserted for a tuple whose composite key is not yet present.
The source inserts `wrong_count = 1, correct_streak = 0, mastered = false`
with the question snapshot; `id`, `last_seen_at` and `created_at` are
assigned by the database, modelled as the fresh id `nid` and the current
time `now`. -/
def freshRecord (q : IngestQuestion) (nid now : Nat) : MistakeRecord :=
  { id := nid
    storage_path := q.storage_path
    file_name := q.file_name
    question_id := q.question_id
    question := q.question
    options := q.options
    answer := q.answer
    wrong_count := 1
    correct_streak := 0
    mastered := false
    last_seen_at := now
    created_at := now }

/-- The update object of the ingest loop, applied to a row `r`:
`wrong_count = existing.wrong_count + 1, correct_streak = 0,
mastered = false, last_seen_at = now`. -/
def ingestUpdates (existing : MistakeRecord) (now : Nat) (r : MistakeRecord) :
    MistakeRecord :=
  { r with
    wrong_count := existing.wrong_count + 1
    correct_streak := 0
    mastered := false
    last_seen_at := now }

/-- One iteration of the `for (const q of questions)` loop of
`POST /api/mistakes`: look the composite key up with `.maybeSingle()`;
if found, update `wrong_count = existing.wrong_count + 1,
correct_streak = 0, mastered = false, last_seen_at = now` on every row whose
id is `existing.id`; otherwise insert a fresh row. -/
def ingestOne (db : Table) (q : IngestQuestion) (nid now : Nat) : Table :=
  match db.find? (keyMatch q.storage_path q.question_id) with
  | some existing =>
    db.map (fun r => if idMatch existing.id r then ingestUpdates existing now r else r)
  | none => db ++ [freshRecord q nid now]

/-- The whole ingest loop, threading the fresh-id counter. -/
def ingestList (db : Table) (qs : List IngestQuestion) (nid now : Nat) :
    Table :=
  match qs with
  | [] => db
  | q :: rest => ingestList (ingestOne db q nid now) rest (nid + 1) now

/-- `POST /api/mistakes`: reject a malformed body, a missing / non-array
`questions` field, and an empty array with 400; otherwise run the ingest
loop and acknowledge. -/
def POST (db : Table) (body : PostBody) (nid now : Nat) :
    Table × PostResponse :=
  match body with
  | .invalidJson => (db, .invalidInput)
  | .noQuestionsArray => (db, .invalidInput)
  | .questions qs =>
    if qs.length = 0 then (db, .invalidInput)
    else (ingestList db qs nid now, .ok)

/-- The ledger: the persisted table together with the database's fresh-id
counter (the source lets the database assign row ids). -/
structure Ledger where
  nextId : Nat
  db : Table
  deriving Repr, DecidableEq

/-- A fine-grained ledger step: one `record outcome` call, one tuple of a
bulk-ingest batch, or one manual delete.  A whole `POST` batch is the
sequence of its tuple steps. -/
inductive Step where
  | outcome (rid : Nat) (b : Bool) (now : Nat)
  | tuple (q : IngestQuestion) (now : Nat)
  | del (rid : Nat)
  deriving Repr, DecidableEq

/-- Apply one step to the ledger.  A failed `record outcome` (record not
found) leaves the table unchanged, exactly as the handler returns before the
update. -/
def Ledger.step (l : Ledger) : Step → Ledger
  | .outcome rid b now => { l with db := (PATCH l.db rid (.correct b) now).1 }
  | .tuple q now => { nextId := l.nextId + 1, db := ingestOne l.db q l.nextId now }
  | .del rid => { l with db := DELETE l.db rid }

/-- Apply a sequence of steps. -/
def Ledger.run (l : Ledger) : List Step → Ledger
  | [] => l
  | s :: rest => (l.step s).run rest

/-- The empty ledger. -/
def Ledger.init : Ledger := ⟨0, []⟩

/-- Well-formedness maintained by the database: row ids are pairwise
distinct (primary key) and below the fresh-id counter. -/
def Ledger.Wf (l : Ledger) : Prop :=
  l.db.Pairwise (fun a b => a.id ≠ b.id) ∧ ∀ r ∈ l.db, r.id < l.nextId

/-- The wrong count currently stored for row id `i`, if such a row exists. -/
def wrongCountOf (db : Table) (i : Nat) : Option Nat :=
  (db.find? (idMatch i)).map (fun r => r.wrong_count)

/-- Whether a step records an incorrect answer against row id `i` of `db`:
a `record outcome` call with `correct == false` that finds the row, or an
ingest tuple whose composite-key lookup finds the row. -/
def recordsWrong (db : Table) (s : Step) (i : Nat) : Bool :=
  match s with
  | .outcome rid b _ => rid == i && !b && (db.find? (idMatch rid)).isSome
  | .tuple q _ =>
    match db.find? (keyMatch q.storage_path q.question_id) with
    | some ex => ex.id == i
    | none => false
  | .del _ => false

/-- The fields of a row that the spec declares frozen: identity, the
question snapshot, and the creation time. -/
def frozenFields (r : MistakeRecord) :
    Nat × String × String × Int × String × List String × String × Nat :=
  (r.id, r.storage_path, r.file_name, r.question_id, r.question, r.options,
    r.answer, r.created_at)

/-- The spec's derived-flag invariant: every stored row has
`mastered == true` iff its stored streak has reached the threshold. -/
def masteredInv (db : Table) : Prop :=
  ∀ r ∈ db, r.mastered = true ↔ MASTERY_THRESHOLD ≤ r.correct_streak

/-- The spec's identity invariant: at most one row per composite business
key `(storage_path, question_id)`. -/
def KeyUnique (db : Table) : Prop :=
  db.Pairwise (fun a b =>
    ¬(a.storage_path = b.storage_path ∧ a.question_id = b.question_id))

/-! ### Helper lemmas -/

theorem patchUpdates_frozen (c : Bool) (row : MistakeRecord) (now : Nat)
    (r : MistakeRecord) : frozenFields (patchUpdates c row now r) = frozenFields r := rfl

theorem ingestUpdates_frozen (existing : MistakeRecord) (now : Nat)
    (r : MistakeRecord) :
    frozenFields (ingestUpdates existing now r) = frozenFields r := rfl

theorem patchUpdates_id (c : Bool) (row : MistakeRecord) (now : Nat)
    (r : MistakeRecord) : (patchUpdates c row now r).id = r.id := rfl

theorem ingestUpdates_id (existing : MistakeRecord) (now : Nat)
    (r : MistakeRecord) : (ingestUpdates existing now r).id = r.id := rfl

theorem find?_map_of_pres {f : MistakeRecord → MistakeRecord}
    {p : MistakeRecord → Bool} (hf : ∀ r, p (f r) = p r) (l : Table) :
    (l.map f).find? p = (l.find? p).map f := by
  rw [List.find?_map]
  have hpf : (p ∘ f) = p := funext hf
  rw [hpf]

theorem idMatch_eq_true {i : Nat} {r : MistakeRecord} :
    idMatch i r = true ↔ r.id = i := by
  simp [idMatch]

theorem eq_of_mem_of_idNodup {l : Table}
    (h : l.Pairwise (fun a b => a.id ≠ b.id)) {a b : MistakeRecord}
    (ha : a ∈ l) (hb : b ∈ l) (hid : a.id = b.id) : a = b := by
  induction l with
  | nil => cases ha
  | cons x xs ih =>
    rw [List.pairwise_cons] at h
    cases ha with
    | head =>
      cases hb with
      | head => rfl
      | tail _ hb' => exact absurd hid (h.1 b hb')
    | tail _ ha' =>
      cases hb with
      | head => exact absurd hid.symm (h.1 a ha')
      | tail _ hb' => exact ih h.2 ha' hb'

theorem find?_id_self {l : Table} (h : l.Pairwise (fun a b => a.id ≠ b.id))
    {r : MistakeRecord} (hr : r ∈ l) : l.find? (idMatch r.id) = some r := by
  have hsome : (l.find? (idMatch r.id)).isSome := by
    rw [List.find?_isSome]
    exact ⟨r, hr, by simp [idMatch]⟩
  obtain ⟨r', hr'⟩ := Option.isSome_iff_exists.mp hsome
  have hmem : r' ∈ l := List.mem_of_find?_eq_some hr'
  have hid : r'.id = r.id := idMatch_eq_true.mp (List.find?_some hr')
  rw [hr', eq_of_mem_of_idNodup h hmem hr hid]

theorem idMatch_guard {rid : Nat} {f : MistakeRecord → MistakeRecord}
    (hf : ∀ r, (f r).id = r.id) (i : Nat) (r : MistakeRecord) :
    idMatch i (if idMatch rid r then f r else r) = idMatch i r := by
  by_cases hr : idMatch rid r = true
  · rw [if_pos hr]
    simp [idMatch, hf]
  · rw [if_neg hr]

theorem find?_guardMap {rid : Nat} {f : MistakeRecord → MistakeRecord}
    (hf : ∀ r, (f r).id = r.id) (i : Nat) (l : Table) :
    (l.map (fun r => if idMatch rid r then f r else r)).find? (idMatch i) =
      (l.find? (idMatch i)).map (fun r => if idMatch rid r then f r else r) :=
  find?_map_of_pres (fun r => idMatch_guard hf i r) l

theorem patch_find?_eq (db : Table) (rid : Nat) (c : Bool) (now : Nat)
    (row : MistakeRecord) (h : db.find? (idMatch rid) = some row) :
    ((PATCH db rid (.correct c) now).1).find? (idMatch rid) =
      some (patchUpdates c row now row) := by
  have hrow : idMatch rid row = true := List.find?_some h
  simp only [PATCH, h]
  rw [find?_guardMap (fun r => patchUpdates_id c row now r), h]
  simp [hrow]

theorem ingest_found_find?_eq (db : Table) (q : IngestQuestion)
    (nid now : Nat) (ex : MistakeRecord)
    (h : db.find? (keyMatch q.storage_path q.question_id) = some ex) :
    ∃ r0 : MistakeRecord, db.find? (idMatch ex.id) = some r0 ∧
      (ingestOne db q nid now).find? (idMatch ex.id) =
        some (ingestUpdates ex now r0) := by
  have hmem : ex ∈ db := List.mem_of_find?_eq_some h
  have hsome : (db.find? (idMatch ex.id)).isSome := by
    rw [List.find?_isSome]
    exact ⟨ex, hmem, by simp [idMatch]⟩
  obtain ⟨r0, hr0⟩ := Option.isSome_iff_exists.mp hsome
  have hid : idMatch ex.id r0 = true := List.find?_some hr0
  refine ⟨r0, hr0, ?_⟩
  simp only [ingestOne, h]
  rw [find?_guardMap (fun r => ingestUpdates_id ex now r), hr0]
  simp [hid]

theorem mastered_mem_ingestOne (db : Table) (q : IngestQuestion)
    (nid now : Nat) (r' : MistakeRecord) (h : r' ∈ ingestOne db q nid now)
    (hm : r'.mastered = true) : r' ∈ db := by
  cases hfind : db.find? (keyMatch q.storage_path q.question_id) with
  | some ex =>
    simp only [ingestOne, hfind] at h
    obtain ⟨a, ha, hfa⟩ := List.mem_map.mp h
    by_cases hid : idMatch ex.id a = true
    · rw [if_pos hid] at hfa
      rw [← hfa] at hm
      simp [ingestUpdates] at hm
    · rw [if_neg hid] at hfa
      rwa [← hfa]
  | none =>
    simp only [ingestOne, hfind] at h
    rcases List.mem_append.mp h with h1 | h1
    · exact h1
    · exfalso
      have hfr : r' = freshRecord q nid now := by simpa using h1
      rw [hfr] at hm
      simp [freshRecord] at hm

theorem mastered_mem_ingestList (db : Table) (qs : List IngestQuestion)
    (nid now : Nat) (r' : MistakeRecord)
    (h : r' ∈ ingestList db qs nid now) (hm : r'.mastered = true) :
    r' ∈ db := by
  induction qs generalizing db nid with
  | nil => simpa [ingestList] using h
  | cons q rest ih =>
    exact mastered_mem_ingestOne db q nid now r'
      (ih (ingestOne db q nid now) (nid + 1) h) hm

theorem guard_field_eq {α : Type} {rid : Nat}
    {f : MistakeRecord → MistakeRecord} {g : MistakeRecord → α}
    (hf : ∀ r, g (f r) = g r) (r : MistakeRecord) :
    g (if idMatch rid r then f r else r) = g r := by
  by_cases hr : idMatch rid r = true
  · rw [if_pos hr, hf]
  · rw [if_neg hr]

theorem wf_step (l : Ledger) (s : Step) (h : l.Wf) : (l.step s).Wf := by
  obtain ⟨hnd, hlt⟩ := h
  cases s with
  | outcome rid c now =>
    cases hfind : l.db.find? (idMatch rid) with
    | none =>
      exact ⟨by simpa [Ledger.step, PATCH, hfind] using hnd,
        by simpa [Ledger.step, PATCH, hfind] using hlt⟩
    | some row =>
      constructor
      · simp only [Ledger.step, PATCH, hfind]
        rw [List.pairwise_map]
        refine hnd.imp ?_
        intro a b hab
        rwa [guard_field_eq (fun r => patchUpdates_id c row now r),
          guard_field_eq (fun r => patchUpdates_id c row now r)]
      · intro r hr
        simp only [Ledger.step, PATCH, hfind] at hr ⊢
        obtain ⟨a, ha, rfl⟩ := List.mem_map.mp hr
        rw [guard_field_eq (fun r => patchUpdates_id c row now r)]
        exact hlt a ha
  | tuple q now =>
    cases hfind : l.db.find? (keyMatch q.storage_path q.question_id) with
    | some ex =>
      constructor
      · simp only [Ledger.step, ingestOne, hfind]
        rw [List.pairwise_map]
        refine hnd.imp ?_
        intro a b hab
        rwa [guard_field_eq (fun r => ingestUpdates_id ex now r),
          guard_field_eq (fun r => ingestUpdates_id ex now r)]
      · intro r hr
        simp only [Ledger.step, ingestOne, hfind] at hr ⊢
        obtain ⟨a, ha, rfl⟩ := List.mem_map.mp hr
        rw [guard_field_eq (fun r => ingestUpdates_id ex now r)]
        exact Nat.lt_succ_of_lt (hlt a ha)
    | none =>
      constructor
      · simp only [Ledger.step, ingestOne, hfind]
        rw [List.pairwise_append]
        refine ⟨hnd, List.pairwise_singleton _ _, ?_⟩
        intro a ha b hb
        have hb' : b = freshRecord q l.nextId now := by simpa using hb
        have : a.id < l.nextId := hlt a ha
        rw [hb']
        simp only [freshRecord]
        omega
      · intro r hr
        simp only [Ledger.step, ingestOne, hfind] at hr ⊢
        rcases List.mem_append.mp hr with h1 | h1
        · exact Nat.lt_succ_of_lt (hlt r h1)
        · have h1' : r = freshRecord q l.nextId now := by simpa using h1
          rw [h1']
          exact Nat.lt_succ_self _
  | del rid =>
    constructor
    · exact List.Pairwise.sublist (List.filter_sublist l.db) hnd
    · intro r hr
      simp only [Ledger.step, DELETE] at hr
      exact hlt r (List.mem_filter.mp hr).1

theorem wf_run (l : Ledger) (steps : List Step) (h : l.Wf) :
    (l.run steps).Wf := by
  induction steps generalizing l with
  | nil => exact h
  | cons s rest ih => exact ih _ (wf_step l s h)

theorem guard_key (rid : Nat) {f : MistakeRecord → MistakeRecord}
    (hf1 : ∀ r, (f r).storage_path = r.storage_path)
    (hf2 : ∀ r, (f r).question_id = r.question_id) (x : MistakeRecord) :
    (if idMatch rid x then f x else x).storage_path = x.storage_path ∧
    (if idMatch rid x then f x else x).question_id = x.question_id := by
  by_cases hx : idMatch rid x = true
  · rw [if_pos hx]
    exact ⟨hf1 x, hf2 x⟩
  · rw [if_neg hx]
    exact ⟨rfl, rfl⟩

theorem masteredInv_step (l : Ledger) (s : Step) (h : masteredInv l.db) :
    masteredInv (l.step s).db := by
  cases s with
  | outcome rid c now =>
    cases hfind : l.db.find? (idMatch rid) with
    | none => simpa [Ledger.step, PATCH, hfind] using h
    | some row =>
      intro r hr
      simp only [Ledger.step, PATCH, hfind] at hr
      obtain ⟨a, ha, rfl⟩ := List.mem_map.mp hr
      by_cases hid : idMatch rid a = true
      · rw [if_pos hid]
        simp [patchUpdates, newStreakOf]
      · rw [if_neg hid]
        exact h a ha
  | tuple q now =>
    cases hfind : l.db.find? (keyMatch q.storage_path q.question_id) with
    | some ex =>
      intro r hr
      simp only [Ledger.step, ingestOne, hfind] at hr
      obtain ⟨a, ha, rfl⟩ := List.mem_map.mp hr
      by_cases hid : idMatch ex.id a = true
      · rw [if_pos hid]
        simp [ingestUpdates, MASTERY_THRESHOLD]
      · rw [if_neg hid]
        exact h a ha
    | none =>
      intro r hr
      simp only [Ledger.step, ingestOne, hfind] at hr
      rcases List.mem_append.mp hr with h1 | h1
      · exact h r h1
      · have h1' : r = freshRecord q l.nextId now := by simpa using h1
        rw [h1']
        simp [freshRecord, MASTERY_THRESHOLD]
  | del rid =>
    intro r hr
    simp only [Ledger.step, DELETE] at hr
    exact h r (List.mem_filter.mp hr).1

theorem keyUnique_step (l : Ledger) (s : Step) (h : KeyUnique l.db) :
    KeyUnique (l.step s).db := by
  cases s with
  | outcome rid c now =>
    cases hfind : l.db.find? (idMatch rid) with
    | none => simpa [Ledger.step, PATCH, hfind] using h
    | some row =>
      simp only [Ledger.step, PATCH, hfind, KeyUnique]
      rw [List.pairwise_map]
      refine h.imp ?_
      intro a b hab
      have hga := guard_key rid (f := patchUpdates c row now) (fun r => rfl) (fun r => rfl) a
      have hgb := guard_key rid (f := patchUpdates c row now) (fun r => rfl) (fun r => rfl) b
      rw [hga.1, hga.2, hgb.1, hgb.2]
      exact hab
  | tuple q now =>
    cases hfind : l.db.find? (keyMatch q.storage_path q.question_id) with
    | some ex =>
      simp only [Ledger.step, ingestOne, hfind, KeyUnique]
      rw [List.pairwise_map]
      refine h.imp ?_
      intro a b hab
      have hga := guard_key ex.id (f := ingestUpdates ex now) (fun r => rfl) (fun r => rfl) a
      have hgb := guard_key ex.id (f := ingestUpdates ex now) (fun r => rfl) (fun r => rfl) b
      rw [hga.1, hga.2, hgb.1, hgb.2]
      exact hab
    | none =>
      simp only [Ledger.step, ingestOne, hfind, KeyUnique]
      rw [List.pairwise_append]
      refine ⟨h, List.pairwise_singleton _ _, ?_⟩
      intro a ha b hb
      have hb' : b = freshRecord q l.nextId now := by simpa using hb
      have hno := List.find?_eq_none.mp hfind a ha
      simp only [keyMatch, Bool.and_eq_true, beq_iff_eq, not_and] at hno
      rw [hb']
      simp only [freshRecord, not_and]
      intro hsp
      exact hno hsp
  | del rid =>
    exact List.Pairwise.sublist (List.filter_sublist l.db) h

theorem nextId_mono (l : Ledger) (s : Step) : l.nextId ≤ (l.step s).nextId := by
  cases s with
  | outcome rid c now => exact Nat.le_refl _
  | tuple q now => exact Nat.le_succ _
  | del rid => exact Nat.le_refl _

theorem lt_nextId_of_wrongCountOf (l : Ledger) (i : Nat) (hw : l.Wf)
    (w : Nat) (h : wrongCountOf l.db i = some w) : i < l.nextId := by
  unfold wrongCountOf at h
  cases hfo : l.db.find? (idMatch i) with
  | none =>
    rw [hfo] at h
    cases h
  | some r0 =>
    have hmem := List.mem_of_find?_eq_some hfo
    have hid : r0.id = i := idMatch_eq_true.mp (List.find?_some hfo)
    rw [← hid]
    exact hw.2 r0 hmem

theorem wrongCountOf_step_eq (l : Ledger) (s : Step) (i : Nat) (hw : l.Wf)
    (w w' : Nat) (h : wrongCountOf l.db i = some w)
    (h' : wrongCountOf (l.step s).db i = some w') :
    w' = if recordsWrong l.db s i then w + 1 else w := by
  unfold wrongCountOf at h h'
  cases hfo : l.db.find? (idMatch i) with
  | none =>
    rw [hfo] at h
    cases h
  | some r0 =>
    rw [hfo] at h
    have hw0 : r0.wrong_count = w := by simpa using h
    have hr0id : r0.id = i := idMatch_eq_true.mp (List.find?_some hfo)
    have hr0mem : r0 ∈ l.db := List.mem_of_find?_eq_some hfo
    cases s with
    | outcome rid c now =>
      cases hfind : l.db.find? (idMatch rid) with
      | none =>
        simp only [Ledger.step, PATCH, hfind] at h'
        rw [hfo] at h'
        have hww : r0.wrong_count = w' := by simpa using h'
        have hcond : recordsWrong l.db (.outcome rid c now) i = false := by
          simp [recordsWrong, hfind]
        rw [hcond]
        simp only [Bool.false_eq_true, if_false]
        omega
      | some row =>
        simp only [Ledger.step, PATCH, hfind] at h'
        rw [find?_guardMap (fun r => patchUpdates_id c row now r) i, hfo] at h'
        simp only [Option.map_some', Option.some.injEq] at h'
        by_cases hri : rid = i
        · subst hri
          have hrow : row = r0 := by
            rw [hfind] at hfo
            exact Option.some.inj hfo
          have hg : idMatch rid r0 = true := by simp [idMatch, hr0id]
          rw [if_pos hg] at h'
          have hcond : recordsWrong l.db (.outcome rid c now) rid = !c := by
            simp [recordsWrong, hfind]
          rw [hcond]
          cases c with
          | true =>
            simp only [Bool.not_true, Bool.false_eq_true, if_false]
            simp [patchUpdates, hrow] at h'
            omega
          | false =>
            simp only [Bool.not_false, if_true]
            simp [patchUpdates, hrow] at h'
            omega
        · have hg : idMatch rid r0 = false := by
            simp only [idMatch, beq_eq_false_iff_ne, ne_eq]
            omega
          rw [hg] at h'
          simp only [Bool.false_eq_true, if_false] at h'
          have hcond : recordsWrong l.db (.outcome rid c now) i = false := by
            have hb : (rid == i) = false := by
              simp only [beq_eq_false_iff_ne, ne_eq]
              omega
            simp [recordsWrong, hb]
          rw [hcond]
          simp only [Bool.false_eq_true, if_false]
          omega
    | tuple q now =>
      cases hfind : l.db.find? (keyMatch q.storage_path q.question_id) with
      | some ex =>
        simp only [Ledger.step, ingestOne, hfind] at h'
        rw [find?_guardMap (fun r => ingestUpdates_id ex now r) i, hfo] at h'
        simp only [Option.map_some', Option.some.injEq] at h'
        by_cases hei : ex.id = i
        · have hex : ex ∈ l.db := List.mem_of_find?_eq_some hfind
          have hexr0 : r0 = ex :=
            eq_of_mem_of_idNodup hw.1 hr0mem hex (by rw [hr0id, hei])
          have hg : idMatch ex.id r0 = true := by simp [idMatch, hr0id, hei]
          rw [if_pos hg] at h'
          simp only [ingestUpdates] at h'
          rw [hexr0] at hw0
          have hcond : recordsWrong l.db (.tuple q now) i = true := by
            simp [recordsWrong, hfind, hei]
          rw [hcond, if_pos rfl]
          omega
        · have hg : idMatch ex.id r0 = false := by
            simp only [idMatch, beq_eq_false_iff_ne, ne_eq]
            omega
          rw [hg] at h'
          simp only [Bool.false_eq_true, if_false] at h'
          have hcond : recordsWrong l.db (.tuple q now) i = false := by
            have hb : (ex.id == i) = false := by
              simp only [beq_eq_false_iff_ne, ne_eq]
              omega
            simp [recordsWrong, hfind, hb]
          rw [hcond]
          simp only [Bool.false_eq_true, if_false]
          omega
      | none =>
        simp only [Ledger.step, ingestOne, hfind] at h'
        rw [List.find?_append, hfo] at h'
        have hww : r0.wrong_count = w' := by simpa using h'
        have hcond : recordsWrong l.db (.tuple q now) i = false := by
          simp [recordsWrong, hfind]
        rw [hcond]
        simp only [Bool.false_eq_true, if_false]
        omega
    | del rid =>
      simp only [Ledger.step, DELETE] at h'
      have hcond : recordsWrong l.db (.del rid) i = false := rfl
      rw [hcond]
      simp only [Bool.false_eq_true, if_false]
      by_cases hri : rid = i
      · subst hri
        have hnone :
            (l.db.filter (fun r => !idMatch rid r)).find? (idMatch rid) =
              none := by
          rw [List.find?_eq_none]
          intro x hx
          have hx2 := (List.mem_filter.mp hx).2
          intro hcontra
          rw [hcontra] at hx2
          simp at hx2
        rw [hnone] at h'
        cases h'
      · have hpred :
            (fun a => decide ((fun r => !idMatch rid r) a = true ∧
              idMatch i a = true)) = idMatch i := by
          funext a
          by_cases ha : idMatch i a = true
          · have hra : idMatch rid a = false := by
              have := idMatch_eq_true.mp ha
              simp only [idMatch, beq_eq_false_iff_ne, ne_eq, this]
              omega
            simp [ha, hra]
          · simp [ha]
        rw [List.find?_filter, hpred, hfo] at h'
        have hww : r0.wrong_count = w' := by simpa using h'
        omega

theorem wrongCountOf_none_step (l : Ledger) (s : Step) (i : Nat)
    (hi : i < l.nextId) (h : wrongCountOf l.db i = none) :
    wrongCountOf (l.step s).db i = none := by
  unfold wrongCountOf at h ⊢
  rw [Option.map_eq_none'] at h
  rw [Option.map_eq_none']
  cases s with
  | outcome rid c now =>
    cases hfind : l.db.find? (idMatch rid) with
    | none => simpa [Ledger.step, PATCH, hfind] using h
    | some row =>
      simp only [Ledger.step, PATCH, hfind]
      rw [find?_guardMap (fun r => patchUpdates_id c row now r) i, h]
      rfl
  | tuple q now =>
    cases hfind : l.db.find? (keyMatch q.storage_path q.question_id) with
    | some ex =>
      simp only [Ledger.step, ingestOne, hfind]
      rw [find?_guardMap (fun r => ingestUpdates_id ex now r) i, h]
      rfl
    | none =>
      simp only [Ledger.step, ingestOne, hfind]
      rw [List.find?_append, h]
      have hfr : idMatch i (freshRecord q l.nextId now) = false := by
        simp only [idMatch, freshRecord, beq_eq_false_iff_ne, ne_eq]
        omega
      simp [List.find?, hfr]
  | del rid =>
    simp only [Ledger.step, DELETE]
    rw [List.find?_eq_none]
    intro x hx
    exact List.find?_eq_none.mp h x (List.mem_filter.mp hx).1

theorem wrongCountOf_none_run (l : Ledger) (steps : List Step) (i : Nat)
    (hw : l.Wf) (hi : i < l.nextId) (h : wrongCountOf l.db i = none) :
    wrongCountOf (l.run steps).db i = none := by
  induction steps generalizing l with
  | nil => exact h
  | cons s rest ih =>
    exact ih (l.step s) (wf_step l s hw)
      (Nat.lt_of_lt_of_le hi (nextId_mono l s))
      (wrongCountOf_none_step l s i hi h)

theorem wrongCountOf_run_le (l : Ledger) (steps : List Step) (i : Nat)
    (hw : l.Wf) (w w' : Nat) (h : wrongCountOf l.db i = some w)
    (h' : wrongCountOf (l.run steps).db i = some w') : w ≤ w' := by
  induction steps generalizing l w with
  | nil =>
    have : some w = some w' := h.symm.trans h'
    exact Nat.le_of_eq (Option.some.inj this)
  | cons s rest ih =>
    have hi : i < l.nextId := lt_nextId_of_wrongCountOf l i hw w h
    have hrun : (l.run (s :: rest)) = (l.step s).run rest := rfl
    rw [hrun] at h'
    cases hmid : wrongCountOf (l.step s).db i with
    | none =>
      have hend := wrongCountOf_none_run (l.step s) rest i (wf_step l s hw)
        (Nat.lt_of_lt_of_le hi (nextId_mono l s)) hmid
      rw [hend] at h'
      cases h'
    | some wm =>
      have h1 : wm = if recordsWrong l.db s i then w + 1 else w :=
        wrongCountOf_step_eq l s i hw w wm h hmid
      have h2 : wm ≤ w' := ih (l.step s) (wf_step l s hw) wm hmid h'
      have h3 : w ≤ wm := by
        cases hrw : recordsWrong l.db s i with
        | true =>
          rw [hrw, if_pos rfl] at h1
          omega
        | false =>
          rw [hrw] at h1
          simp only [Bool.false_eq_true, if_false] at h1
          omega
      exact Nat.le_trans h3 h2

/-! ### Concrete fixtures -/

/-- A concrete active row. -/
def rowA : MistakeRecord :=
  { id := 1
    storage_path := "notes.pdf"
    file_name := "notes.pdf"
    question_id := 2
    question := "Q2"
    options := ["w", "x", "y", "z"]
    answer := "y"
    wrong_count := 2
    correct_streak := 2
    mastered := false
    last_seen_at := 10
    created_at := 5 }

/-- A concrete mastered row. -/
def rowM : MistakeRecord :=
  { rowA with id := 2, question_id := 3, correct_streak := 3, mastered := true }

/-- A concrete ingest tuple hitting `rowA`'s composite key with a fresh
question snapshot. -/
def tupA : IngestQuestion :=
  { storage_path := "notes.pdf"
    file_name := "notes.pdf"
    question_id := 2
    question := "Q2 regenerated"
    options := ["a", "b"]
    answer := "a" }

/-! ### Claims -/

/-- C1: a successful `record outcome` call persists, for a row with prior
streak `s` and prior wrong count `w`: streak `s + 1` and wrong count `w`
when `correct == true`; streak `0` and wrong count `w + 1` when
`correct == false`; in both cases `mastered = (new streak >= 3)` and
`last_seen_at` is set to the current time. -/
theorem C1_record_outcome_updates (db : Table) (rid : Nat) (b : Bool)
    (now : Nat) (row : MistakeRecord)
    (h : db.find? (idMatch rid) = some row) :
    ∃ row' : MistakeRecord,
      ((PATCH db rid (.correct b) now).1).find? (idMatch rid) = some row' ∧
      row'.correct_streak = (if b then row.correct_streak + 1 else 0) ∧
      row'.wrong_count = (if b then row.wrong_count else row.wrong_count + 1) ∧
      row'.mastered = decide (MASTERY_THRESHOLD ≤ row'.correct_streak) ∧
      row'.last_seen_at = now := by
  have hrow : idMatch rid row = true := List.find?_some h
  simp only [PATCH, h]
  rw [find?_map_of_pres, h]
  · refine ⟨patchUpdates b row now row, ?_, ?_, ?_, ?_, ?_⟩
    · simp [hrow]
    · simp [patchUpdates, newStreakOf]
    · simp [patchUpdates]
    · simp [patchUpdates]
    · simp [patchUpdates]
  · intro r
    by_cases hr : idMatch rid r = true
    · rw [if_pos hr, hr]
      simpa [idMatch, patchUpdates] using hr
    · rw [if_neg hr]

/-- C1 witness: a concrete correct outcome on `rowA`. -/
theorem C1_record_outcome_updates_witness :
    ∃ row' : MistakeRecord,
      ((PATCH [rowA] 1 (.correct true) 11).1).find? (idMatch 1) = some row' ∧
      row'.correct_streak = (if true then rowA.correct_streak + 1 else 0) ∧
      row'.wrong_count = (if true then rowA.wrong_count else rowA.wrong_count + 1) ∧
      row'.mastered = decide (MASTERY_THRESHOLD ≤ row'.correct_streak) ∧
      row'.last_seen_at = 11 :=
  C1_record_outcome_updates [rowA] 1 true 11 rowA (by rfl)

/-- C5: `GET /api/mistakes` returns exactly the rows with
`mastered == false` — no mastered row appears and no active row is
omitted — ordered ascending by `created_at`. -/
theorem C5_get_lists_active (db : Table) :
    (∀ r : MistakeRecord, r ∈ GET db ↔ r ∈ db ∧ r.mastered = false) ∧
    (GET db).Pairwise (fun a b => a.created_at ≤ b.created_at) := by
  constructor
  · intro r
    simp [GET, List.mem_mergeSort, List.mem_filter]
  · have htrans : ∀ a b c : MistakeRecord,
        decide (a.created_at ≤ b.created_at) = true →
        decide (b.created_at ≤ c.created_at) = true →
        decide (a.created_at ≤ c.created_at) = true := by
      intro a b c hab hbc
      simp only [decide_eq_true_eq] at *
      omega
    have htotal : ∀ a b : MistakeRecord,
        (decide (a.created_at ≤ b.created_at) ||
          decide (b.created_at ≤ a.created_at)) = true := by
      intro a b
      simp only [Bool.or_eq_true, decide_eq_true_eq]
      omega
    have h := List.sorted_mergeSort htrans htotal
      (db.filter (fun r => r.mastered == false))
    exact h.imp (fun hab => by simpa using hab)

/-- C7: `record outcome` answers 400 on a malformed body or a non-boolean
`correct`, 404 when no row has the given id, and on success returns
`{mastered, newStreak, threshold}` with `threshold = 3`; in both failure
cases the table is unchanged. -/
theorem C7_record_outcome_contract (db : Table) (rid now : Nat) :
    PATCH db rid .invalidJson now = (db, .invalidInput) ∧
    PATCH db rid .noBoolCorrect now = (db, .invalidInput) ∧
    (∀ b : Bool, db.find? (idMatch rid) = none →
      PATCH db rid (.correct b) now = (db, .notFound)) ∧
    (∀ (b : Bool) (row : MistakeRecord),
      db.find? (idMatch rid) = some row →
      (PATCH db rid (.correct b) now).2 =
        .ok (decide (MASTERY_THRESHOLD ≤ newStreakOf b row))
          (newStreakOf b row) 3) := by
  refine ⟨rfl, rfl, ?_, ?_⟩
  · intro b h
    simp [PATCH, h]
  · intro b row h
    simp [PATCH, h, MASTERY_THRESHOLD]

/-- C7 witness: concrete error and success cases. -/
theorem C7_record_outcome_contract_witness :
    PATCH [rowA] 1 .invalidJson 11 = ([rowA], .invalidInput) ∧
    PATCH [rowA] 9 (.correct true) 11 = ([rowA], .notFound) ∧
    (PATCH [rowA] 1 (.correct true) 11).2 =
      .ok (decide (MASTERY_THRESHOLD ≤ newStreakOf true rowA))
        (newStreakOf true rowA) 3 :=
  ⟨(C7_record_outcome_contract [rowA] 1 11).1,
    (C7_record_outcome_contract [rowA] 9 11).2.2.1 true (by rfl),
    (C7_record_outcome_contract [rowA] 1 11).2.2.2 true rowA (by rfl)⟩

/-- C10: a bulk-ingest request whose `questions` field is missing, not an
array, or an empty array is rejected with 400 and the table is left
unchanged. -/
theorem C10_post_rejects_bad_questions (db : Table) (nid now : Nat) :
    POST db .noQuestionsArray nid now = (db, .invalidInput) ∧
    POST db (.questions []) nid now = (db, .invalidInput) :=
  ⟨rfl, rfl⟩

/-- C3 counterexample: `rowM` is mastered, yet a single-record
`record outcome` call with `correct == false` stores `mastered = false`,
so the PATCH path does un-retire a mastered record. -/
theorem C3_counterexample :
    rowM.mastered = true ∧
    (((PATCH [rowM] 2 (.correct false) 20).1).find? (idMatch 2)).map
      (fun r => r.mastered) = some false :=
  ⟨rfl, rfl⟩

/-- C3 amended: a `record outcome` call with `correct == true` on a
mastered record (streak at or above the threshold) leaves it mastered, but
a call with `correct == false` resets the streak to 0 and stores
`mastered = false` — the single-record path, like bulk ingest, can
transition a mastered record back to active. -/
theorem C3_mastered_record_outcome (db : Table) (rid now : Nat)
    (row : MistakeRecord) (h : db.find? (idMatch rid) = some row)
    (hm : MASTERY_THRESHOLD ≤ row.correct_streak) :
    (∃ row' : MistakeRecord,
      ((PATCH db rid (.correct true) now).1).find? (idMatch rid) = some row' ∧
      row'.mastered = true) ∧
    (∃ row' : MistakeRecord,
      ((PATCH db rid (.correct false) now).1).find? (idMatch rid) = some row' ∧
      row'.mastered = false ∧ row'.correct_streak = 0) := by
  constructor
  · refine ⟨patchUpdates true row now row, patch_find?_eq db rid true now row h, ?_⟩
    simp only [patchUpdates, newStreakOf, if_true, decide_eq_true_eq]
    unfold MASTERY_THRESHOLD at *
    omega
  · exact ⟨patchUpdates false row now row,
      patch_find?_eq db rid false now row h, rfl, rfl⟩

/-- C3 witness: the amended statement at `rowM`. -/
theorem C3_mastered_record_outcome_witness :
    (∃ row' : MistakeRecord,
      ((PATCH [rowM] 2 (.correct true) 20).1).find? (idMatch 2) = some row' ∧
      row'.mastered = true) ∧
    (∃ row' : MistakeRecord,
      ((PATCH [rowM] 2 (.correct false) 20).1).find? (idMatch 2) = some row' ∧
      row'.mastered = false ∧ row'.correct_streak = 0) :=
  C3_mastered_record_outcome [rowM] 2 20 rowM (by rfl) (by decide)

/-- C4: each bulk-ingest tuple updates the row with the matching composite
key to `wrong_count + 1, correct_streak = 0, mastered = false,
last_seen_at = now`, inserts a fresh row with `wrong_count = 1,
correct_streak = 0, mastered = false` when no row matches, and the ingest
loop never sets `mastered = true` on any row. -/
theorem C4_bulk_ingest (db : Table) (q : IngestQuestion) (nid now : Nat) :
    (∀ ex : MistakeRecord,
      db.find? (keyMatch q.storage_path q.question_id) = some ex →
      ∃ r' : MistakeRecord,
        (ingestOne db q nid now).find? (idMatch ex.id) = some r' ∧
        r'.wrong_count = ex.wrong_count + 1 ∧ r'.correct_streak = 0 ∧
        r'.mastered = false ∧ r'.last_seen_at = now) ∧
    (db.find? (keyMatch q.storage_path q.question_id) = none →
      ingestOne db q nid now = db ++ [freshRecord q nid now] ∧
      (freshRecord q nid now).wrong_count = 1 ∧
      (freshRecord q nid now).correct_streak = 0 ∧
      (freshRecord q nid now).mastered = false) ∧
    (∀ (qs : List IngestQuestion) (r' : MistakeRecord),
      r' ∈ ingestList db qs nid now → r'.mastered = true → r' ∈ db) := by
  refine ⟨?_, ?_, ?_⟩
  · intro ex h
    obtain ⟨r0, _, hfind⟩ := ingest_found_find?_eq db q nid now ex h
    exact ⟨ingestUpdates ex now r0, hfind, rfl, rfl, rfl, rfl⟩
  · intro h
    exact ⟨by simp [ingestOne, h], rfl, rfl, rfl⟩
  · intro qs r' h hm
    exact mastered_mem_ingestList db qs nid now r' h hm

/-- C4 witness: `tupA` hits `rowA`'s key; on the empty table it inserts;
the loop leaves `rowM`'s mastered flag only because the row was already
there. -/
theorem C4_bulk_ingest_witness :
    (∃ r' : MistakeRecord,
      (ingestOne [rowA] tupA 5 12).find? (idMatch rowA.id) = some r' ∧
      r'.wrong_count = rowA.wrong_count + 1 ∧ r'.correct_streak = 0 ∧
      r'.mastered = false ∧ r'.last_seen_at = 12) ∧
    (ingestOne [] tupA 5 12 = [] ++ [freshRecord tupA 5 12] ∧
      (freshRecord tupA 5 12).wrong_count = 1 ∧
      (freshRecord tupA 5 12).correct_streak = 0 ∧
      (freshRecord tupA 5 12).mastered = false) ∧
    rowM ∈ ([rowM] : Table) :=
  ⟨(C4_bulk_ingest [rowA] tupA 5 12).1 rowA (by decide),
    (C4_bulk_ingest [] tupA 5 12).2.1 (by decide),
    (C4_bulk_ingest [rowM] tupA 5 12).2.2 [tupA] rowM (by decide) (by rfl)⟩

/-- C2: in every ledger state reachable from the empty ledger by any
sequence of steps (bulk-ingest insert, bulk-ingest update, record outcome,
delete), every stored row has `mastered == true` iff its stored
`correct_streak` is at least the threshold 3. -/
theorem C2_mastered_iff_threshold (ops : List Step) (r : MistakeRecord)
    (hr : r ∈ (Ledger.init.run ops).db) :
    r.mastered = true ↔ MASTERY_THRESHOLD ≤ r.correct_streak := by
  have key : ∀ (rest : List Step) (l : Ledger),
      masteredInv l.db → masteredInv (l.run rest).db := by
    intro rest
    induction rest with
    | nil => exact fun l h => h
    | cons s rest' ih => exact fun l h => ih _ (masteredInv_step l s h)
  have hinit : masteredInv Ledger.init.db := by
    intro r hr
    cases hr
  exact key ops Ledger.init hinit r hr

/-- C2 witness: the row inserted by one ingest tuple from the empty
ledger. -/
theorem C2_mastered_iff_threshold_witness :
    (freshRecord tupA 0 7).mastered = true ↔
      MASTERY_THRESHOLD ≤ (freshRecord tupA 0 7).correct_streak :=
  C2_mastered_iff_threshold [Step.tuple tupA 7] (freshRecord tupA 0 7)
    (by decide)

/-- C8: if at most one row exists per composite key
`(storage_path, question_id)`, then after any sequence of ledger steps
(ingest tuples, record outcome, delete) at most one row exists per
composite key. -/
theorem C8_key_uniqueness (l : Ledger) (steps : List Step)
    (h : KeyUnique l.db) : KeyUnique (l.run steps).db := by
  induction steps generalizing l with
  | nil => exact h
  | cons s rest ih => exact ih _ (keyUnique_step l s h)

/-- C8 witness: an ingest tuple and an outcome applied to a one-row
table. -/
theorem C8_key_uniqueness_witness :
    KeyUnique ((Ledger.run ⟨5, [rowA]⟩
      [Step.tuple tupA 12, Step.outcome 1 true 13]).db) :=
  C8_key_uniqueness ⟨5, [rowA]⟩ [Step.tuple tupA 12, Step.outcome 1 true 13]
    (by simp [KeyUnique])

/-- C6: on a well-formed ledger the wrong count stored for a row id never
decreases under any sequence of ledger steps, and a single step raises it
by exactly one precisely when it records an incorrect answer against that
row (a `record outcome` with `correct == false` that finds the row, or a
bulk-ingest tuple whose composite-key lookup hits the row); otherwise it is
unchanged. -/
theorem C6_wrong_count_monotone (l : Ledger) (s : Step) (steps : List Step)
    (i w w1 w2 : Nat) (hw : l.Wf) :
    (wrongCountOf l.db i = some w →
      wrongCountOf (l.step s).db i = some w1 →
      w1 = if recordsWrong l.db s i then w + 1 else w) ∧
    (wrongCountOf l.db i = some w →
      wrongCountOf (l.run steps).db i = some w2 → w ≤ w2) :=
  ⟨fun h h' => wrongCountOf_step_eq l s i hw w w1 h h',
    fun h h' => wrongCountOf_run_le l steps i hw w w2 h h'⟩

/-- C6 witness: an incorrect outcome on `rowA` raises its wrong count from
2 to 3. -/
theorem C6_wrong_count_monotone_witness :
    ((3 : Nat) =
      if recordsWrong [rowA] (Step.outcome 1 false 13) 1 then 2 + 1 else 2) ∧
    (2 : Nat) ≤ 3 :=
  ⟨(C6_wrong_count_monotone ⟨5, [rowA]⟩ (Step.outcome 1 false 13)
      [Step.outcome 1 false 13] 1 2 3 3
      ⟨List.pairwise_singleton _ _, fun r hr => by
        rw [List.mem_singleton] at hr
        subst hr
        decide⟩).1 (by rfl) (by rfl),
    (C6_wrong_count_monotone ⟨5, [rowA]⟩ (Step.outcome 1 false 13)
      [Step.outcome 1 false 13] 1 2 3 3
      ⟨List.pairwise_singleton _ _, fun r hr => by
        rw [List.mem_singleton] at hr
        subst hr
        decide⟩).2 (by rfl) (by rfl)⟩

/-- C9: on a well-formed ledger, if row id `i` exists before and after a
ledger step, its frozen fields — `id`, `storage_path`, `file_name`,
`question_id`, `question`, `options`, `answer`, `created_at` — are
unchanged: outcome and ingest updates write only `wrong_count`,
`correct_streak`, `mastered` and `last_seen_at`, even though an ingest
tuple carries a fresh question snapshot. -/
theorem C9_frozen_fields (l : Ledger) (s : Step) (i : Nat)
    (r r' : MistakeRecord) (hw : l.Wf)
    (h : l.db.find? (idMatch i) = some r)
    (h' : (l.step s).db.find? (idMatch i) = some r') :
    frozenFields r' = frozenFields r := by
  obtain ⟨hnd, hlt⟩ := hw
  have hii : r.id = i := idMatch_eq_true.mp (List.find?_some h)
  have hrmem : r ∈ l.db := List.mem_of_find?_eq_some h
  have hr'i : r'.id = i := idMatch_eq_true.mp (List.find?_some h')
  have hr'mem : r' ∈ (l.step s).db := List.mem_of_find?_eq_some h'
  cases s with
  | outcome rid c now =>
    cases hfind : l.db.find? (idMatch rid) with
    | none =>
      have hmem : r' ∈ l.db := by
        simpa [Ledger.step, PATCH, hfind] using hr'mem
      rw [eq_of_mem_of_idNodup hnd hmem hrmem (by rw [hr'i, hii])]
    | some row =>
      have hmem2 : r' ∈ l.db.map
          (fun x => if idMatch rid x then patchUpdates c row now x else x) := by
        simpa [Ledger.step, PATCH, hfind] using hr'mem
      obtain ⟨a, ha, hfa⟩ := List.mem_map.mp hmem2
      have hai : idMatch i a = true := by
        rw [← idMatch_guard (fun x => patchUpdates_id c row now x) i a, hfa]
        simp [idMatch, hr'i]
      have har : a = r := eq_of_mem_of_idNodup hnd ha hrmem
        (by rw [idMatch_eq_true.mp hai, hii])
      rw [← hfa, har]
      exact guard_field_eq (fun x => patchUpdates_frozen c row now x) r
  | tuple q now =>
    cases hfind : l.db.find? (keyMatch q.storage_path q.question_id) with
    | some ex =>
      have hmem2 : r' ∈ l.db.map
          (fun x => if idMatch ex.id x then ingestUpdates ex now x else x) := by
        simpa [Ledger.step, ingestOne, hfind] using hr'mem
      obtain ⟨a, ha, hfa⟩ := List.mem_map.mp hmem2
      have hai : idMatch i a = true := by
        rw [← idMatch_guard (fun x => ingestUpdates_id ex now x) i a, hfa]
        simp [idMatch, hr'i]
      have har : a = r := eq_of_mem_of_idNodup hnd ha hrmem
        (by rw [idMatch_eq_true.mp hai, hii])
      rw [← hfa, har]
      exact guard_field_eq (fun x => ingestUpdates_frozen ex now x) r
    | none =>
      have hmem2 : r' ∈ l.db ++ [freshRecord q l.nextId now] := by
        simpa [Ledger.step, ingestOne, hfind] using hr'mem
      rcases List.mem_append.mp hmem2 with h1 | h1
      · rw [eq_of_mem_of_idNodup hnd h1 hrmem (by rw [hr'i, hii])]
      · exfalso
        have h1' : r' = freshRecord q l.nextId now := by simpa using h1
        have hrid : r'.id = l.nextId := by
          rw [h1']
          rfl
        have hlt' : r.id < l.nextId := hlt r hrmem
        omega
  | del rid =>
    have hmem2 : r' ∈ l.db.filter (fun x => !idMatch rid x) := by
      simpa [Ledger.step, DELETE] using hr'mem
    rw [eq_of_mem_of_idNodup hnd (List.mem_filter.mp hmem2).1 hrmem
      (by rw [hr'i, hii])]

/-- C9 witness: the ingest update of `rowA` keeps all frozen fields. -/
theorem C9_frozen_fields_witness :
    frozenFields (ingestUpdates rowA 12 rowA) = frozenFields rowA :=
  C9_frozen_fields ⟨5, [rowA]⟩ (Step.tuple tupA 12) 1 rowA
    (ingestUpdates rowA 12 rowA)
    ⟨List.pairwise_singleton _ _, fun r hr => by
      rw [List.mem_singleton] at hr
      subst hr
      decide⟩
    (by rfl) (by decide)

end MistakeBook
